import Mathlib

/-!
Shallow embedding of the freqtrade exchange adapter
(`src/freqtrade/exchange/exchange.py`) for the verification of the
natural-language specification.  Python floats are modelled as rationals
(`ℚ`), exceptions as an explicit error type returned through `Except`,
and dataframe rows as lists of records.
-/

namespace Freqtrade

/-- The error taxonomy of the engine.  The exception classes themselves
live in `freqtrade.exceptions`, which is not part of the sources at hand;
the constructors are modelled from the spec's §7 error table
(`ConfigurationError`, `OperationalException`, `InvalidOrder` as
`InvalidOrderException`, `ExchangeError`, `PricingError`), plus
`notPaginatable` for the error name the spec's §4.3 uses, so that claims
about it are statable. -/
inductive FtError where
  | configurationError
  | operationalException
  | invalidOrderException
  | exchangeError
  | pricingError
  | notPaginatable
  deriving DecidableEq, Repr

/-- Order side, the `BuySell` literal of the source. -/
inductive Side where
  | buy
  | sell
  deriving DecidableEq, Repr

/-- Trading modes the adapter distinguishes. -/
inductive TradingMode where
  | spot
  | margin
  | futures
  deriving DecidableEq, Repr

/-- Margin modes the adapter distinguishes. -/
inductive MarginMode where
  | cross
  | isolated
  deriving DecidableEq, Repr

/-- `Exchange.validate_required_startup_candles` (exchange.py:827-863).
`candle_limit` stands for the value of `self.ohlcv_candle_limit(...)`
and `has_history` for `self._ft_has["ohlcv_has_history"]`.  The Python
`int((candle_count / candle_limit) + (0 if candle_count % candle_limit == 0 else 1))`
is floor division plus the carry, rendered on `ℕ`. -/
def validate_required_startup_candles (has_history : Bool)
    (startup_candles candle_limit : ℕ) : Except FtError ℕ :=
  let candle_count := startup_candles + 1
  let required_candle_call_count :=
    candle_count / candle_limit + (if candle_count % candle_limit = 0 then 0 else 1)
  if has_history then
    if required_candle_call_count > 5 then
      .error .configurationError
    else
      .ok required_candle_call_count
  else if required_candle_call_count > 1 then
    .error .configurationError
  else
    .ok required_candle_call_count

/-- `Exchange._get_stop_limit_rate` (exchange.py:1379-1399).
`limit_ratio` stands for
`order_types.get("stoploss_on_exchange_limit_ratio", 0.99)`. -/
def get_stop_limit_rate (stop_price limit_ratio : ℚ) (side : Side) :
    Except FtError ℚ :=
  let limit_rate : ℚ :=
    if side = .sell then stop_price * limit_ratio
    else stop_price * (2 - limit_ratio)
  let bad_stop_price : Bool :=
    if side = .sell then stop_price < limit_rate else stop_price > limit_rate
  if bad_stop_price then .error .invalidOrderException
  else .ok limit_rate

/-- One leverage tier, as parsed by `Exchange.parse_leverage_tier`
(exchange.py:3380-3388); the optional `maintAmt` is not needed by the
claims about `get_max_leverage`. -/
structure LeverageTier where
  minNotional : ℚ
  maxNotional : ℚ
  maintenanceMarginRate : ℚ
  maxLeverage : ℚ
  deriving DecidableEq, Repr

/-- `min_stake = tier["minNotional"] / (prior_max_lev or tier["maxLeverage"])`
(exchange.py:3419). -/
def tierMinStake (prior_max_lev : Option ℚ) (t : LeverageTier) : ℚ :=
  t.minNotional / (prior_max_lev.getD t.maxLeverage)

/-- `max_stake = tier["maxNotional"] / tier["maxLeverage"]` (exchange.py:3420). -/
def tierMaxStake (t : LeverageTier) : ℚ :=
  t.maxNotional / t.maxLeverage

/-- The tier loop of `Exchange.get_max_leverage` (exchange.py:3417-3434),
threading `prior_max_lev` and the `max_stake` of the most recent
iteration (referred to by the post-loop `if stake_amount > max_stake`).
On an empty remaining list the post-loop code runs: stake above the last
`max_stake` raises `InvalidOrder`, otherwise the unreachable
`OperationalException` is raised. -/
def get_max_leverage_scan :
    List LeverageTier → ℚ → Option ℚ → ℚ → Except FtError ℚ
  | [], stake_amount, _, last_max_stake =>
    if last_max_stake < stake_amount then .error .invalidOrderException
    else .error .operationalException
  | t :: rest, stake_amount, prior_max_lev, _ =>
    if tierMinStake prior_max_lev t ≤ stake_amount ∧
        stake_amount ≤ tierMaxStake t then
      .ok t.maxLeverage
    else
      get_max_leverage_scan rest stake_amount (some t.maxLeverage) (tierMaxStake t)

/-- `Exchange.get_max_leverage` on the futures path for a pair whose tier
list is known (exchange.py:3390-3434).  A zero stake returns the first
tier's `maxLeverage` (`pair_tiers[0]`; the source would fail on an empty
tier list, which `fill_leverage_tiers` never produces — modelled as the
unreachable `OperationalException`). -/
def get_max_leverage (pair_tiers : List LeverageTier) (stake_amount : ℚ) :
    Except FtError ℚ :=
  if stake_amount = 0 then
    match pair_tiers with
    | [] => .error .operationalException
    | t :: _ => .ok t.maxLeverage
  else
    get_max_leverage_scan pair_tiers stake_amount none 0

/-- The selection rule in the words of the spec (§4.7): scan tiers in
ascending order and return the first tier's `maxLeverage` whose
`[min_stake, max_stake]` interval contains the stake. -/
def firstMatchingLeverage : List LeverageTier → ℚ → Option ℚ → Option ℚ
  | [], _, _ => none
  | t :: rest, stake_amount, prior_max_lev =>
    if tierMinStake prior_max_lev t ≤ stake_amount ∧
        stake_amount ≤ tierMaxStake t then
      some t.maxLeverage
    else
      firstMatchingLeverage rest stake_amount (some t.maxLeverage)

/-- The example tier list of the spec's §8:
`[(0,50k,0.004,50), (50k,250k,0.005,20), (250k,1M,0.01,10)]`. -/
def exampleTiers : List LeverageTier :=
  [⟨0, 50000, 4/1000, 50⟩, ⟨50000, 250000, 5/1000, 20⟩,
   ⟨250000, 1000000, 1/100, 10⟩]

/-- The `limits` block of a market descriptor: min/max on amount (base
units) and on cost (quote units); `None` when the venue leaves a bound
unspecified. -/
structure MarketLimits where
  amount_min : Option ℚ
  amount_max : Option ℚ
  cost_min : Option ℚ
  cost_max : Option ℚ
  deriving Repr

/-- `Exchange._get_stake_amount_considering_leverage`
(exchange.py:1032-1039). -/
def get_stake_amount_considering_leverage (stake_amount leverage : ℚ) : ℚ :=
  stake_amount / leverage

/-- `Exchange._get_stake_amount_limit` (exchange.py:980-1030).
`contract_size` models `_contracts_to_amount` (multiplication by the
contract size), `max_from_tiers` the value of
`_get_max_notional_from_tiers` (consulted only on the max branch; the
walrus `if max_from_tiers := …` drops a `0.0` value by Python
truthiness), and `amount_reserve_percent` the configured reserve
(default 5%).  An empty candidate list yields `None` on the min branch
and `float("inf")` — `⊤` — on the max branch; `leverage or 1.0` replaces
a zero leverage by 1. -/
def get_stake_amount_limit (limits : MarketLimits)
    (contract_size price stoploss : ℚ) (isMin : Bool)
    (amount_reserve_percent : ℚ) (max_from_tiers : Option ℚ)
    (leverage : ℚ) : Option (WithTop ℚ) :=
  let margin_reserve : ℚ := if isMin then 1 + amount_reserve_percent else 1
  let stoploss_reserve : ℚ :=
    if isMin then
      max (min (if |stoploss| ≠ 1 then margin_reserve / (1 - |stoploss|)
        else 3/2) (3/2)) 1
    else 1
  let tier_limits : List ℚ :=
    if isMin then []
    else
      match max_from_tiers with
      | some m => if m = 0 then [] else [m]
      | none => []
  let cost_limits : List ℚ :=
    match (if isMin then limits.cost_min else limits.cost_max) with
    | some c => [c * contract_size * stoploss_reserve]
    | none => []
  let amount_limits : List ℚ :=
    match (if isMin then limits.amount_min else limits.amount_max) with
    | some a => [a * contract_size * price * margin_reserve]
    | none => []
  match tier_limits ++ cost_limits ++ amount_limits with
  | [] => if isMin then none else some ⊤
  | x :: xs =>
    some ((get_stake_amount_considering_leverage
      (if isMin then xs.foldl max x else xs.foldl min x)
      (if leverage = 0 then 1 else leverage) : ℚ) : WithTop ℚ)

/-- `Exchange.get_min_pair_stake_amount` (exchange.py:966-969). -/
def get_min_pair_stake_amount (limits : MarketLimits)
    (contract_size price stoploss : ℚ) (amount_reserve_percent : ℚ)
    (max_from_tiers : Option ℚ) (leverage : ℚ) : Option (WithTop ℚ) :=
  get_stake_amount_limit limits contract_size price stoploss true
    amount_reserve_percent max_from_tiers leverage

/-- `Exchange.get_max_pair_stake_amount` (exchange.py:971-978); the
`None` case (never reached on the max branch) raises
`OperationalException`; a stoploss of `0.0` is passed through. -/
def get_max_pair_stake_amount (limits : MarketLimits)
    (contract_size price : ℚ) (amount_reserve_percent : ℚ)
    (max_from_tiers : Option ℚ) (leverage : ℚ) :
    Except FtError (WithTop ℚ) :=
  match get_stake_amount_limit limits contract_size price 0 false
    amount_reserve_percent max_from_tiers leverage with
  | none => .error .operationalException
  | some m => .ok m

/-- The min-branch `margin_reserve` (exchange.py:999-1001):
`1 + amount_reserve_percent`. -/
def margin_reserve_min (amount_reserve_percent : ℚ) : ℚ :=
  1 + amount_reserve_percent

/-- The min-branch `stoploss_reserve` (exchange.py:1002-1004), clamped to
`[1, 1.5]`. -/
def stoploss_reserve_min (amount_reserve_percent stoploss : ℚ) : ℚ :=
  max (min (if |stoploss| ≠ 1 then
    (1 + amount_reserve_percent) / (1 - |stoploss|) else 3/2) (3/2)) 1

/-- An L2 orderbook: price levels `(price, volume)` per side. -/
structure OrderBook where
  bids : List (ℚ × ℚ)
  asks : List (ℚ × ℚ)
  deriving Repr

/-- The fee dictionary attached by `add_dry_order_fee`
(exchange.py:1127-1131); the `currency` entry (the pair's quote
currency) is not needed by the claims and is left out. -/
structure Fee where
  cost : ℚ
  rate : ℚ
  deriving DecidableEq, Repr

/-- The dry-run order dictionary built by `create_dry_run_order`
(exchange.py:1060-1076).  `ordertype` and `status` keep the source's
string values; `ft_order_type_stoploss` models the
`ft_order_type = "stoploss"` sentinel. -/
structure DryOrder where
  price : ℚ
  average : ℚ
  amount : ℚ
  cost : ℚ
  ordertype : String
  side : Side
  filled : ℚ
  remaining : ℚ
  status : String
  fee : Option Fee
  ft_order_type_stoploss : Bool
  deriving Repr

/-- The orderbook walk of `Exchange.get_dry_market_fill_price`
(exchange.py:1149-1167), including Python's `for … else` clause: when the
loop exhausts the book without a `break`, the unfilled remainder is
priced at the last visited `book_entry_price` (initially `0.0`). -/
def dry_fill_loop : List (ℚ × ℚ) → ℚ → ℚ → ℚ → ℚ
  | [], remaining_amount, filled_value, book_entry_price =>
    filled_value + remaining_amount * book_entry_price
  | (book_entry_price, book_entry_coin_volume) :: rest,
      remaining_amount, filled_value, _ =>
    if 0 < remaining_amount then
      if remaining_amount < book_entry_coin_volume then
        filled_value + remaining_amount * book_entry_price
      else
        dry_fill_loop rest (remaining_amount - book_entry_coin_volume)
          (filled_value + book_entry_coin_volume * book_entry_price)
          book_entry_price
    else filled_value

/-- The `forecast_avg_filled_price` computation of
`Exchange.get_dry_market_fill_price` (exchange.py:1145-1174): walk the
chosen book side, divide by the amount, and clamp to
`rate · (1 ± slippage)` with `slippage = 0.05` (buy: upper clamp, sell:
lower clamp). -/
def forecast_avg_filled_price (side : Side) (amount rate : ℚ)
    (book_side : List (ℚ × ℚ)) : ℚ :=
  let slippage : ℚ := 5/100
  let max_slippage_val :=
    rate * (if side = .buy then 1 + slippage else 1 - slippage)
  let filled_value := dry_fill_loop book_side amount 0 0
  let forecast := (max filled_value 0) / amount
  if side = .buy then min forecast max_slippage_val
  else max forecast max_slippage_val

/-- `Exchange.get_dry_market_fill_price` (exchange.py:1136-1178).
`has_l2` is `exchange_has("fetchL2OrderBook")`; the book passed in stands
for the caller's book or the one the source would fetch on demand.
`price_to_precision` (a helper outside the sources at hand) is kept as a
function parameter. -/
def get_dry_market_fill_price (has_l2 : Bool)
    (price_to_precision : ℚ → ℚ) (side : Side) (amount rate : ℚ)
    (orderbook : OrderBook) : ℚ :=
  if has_l2 then
    price_to_precision (forecast_avg_filled_price side amount rate
      (if side = .buy then orderbook.asks else orderbook.bids))
  else rate

/-- `Exchange.add_dry_order_fee` (exchange.py:1118-1134); the fee rate is
the venue taker or maker rate as requested. -/
def add_dry_order_fee (taker_fee maker_fee : ℚ) (dry_order : DryOrder)
    (taker_or_maker : String) : DryOrder :=
  let fee := if taker_or_maker = "taker" then taker_fee else maker_fee
  { dry_order with fee := some ⟨dry_order.cost * fee, fee⟩ }

/-- `Exchange._dry_is_price_crossed` (exchange.py:1180-1204); an empty
book side (the `IndexError` arm) yields `false`. -/
def dry_is_price_crossed (has_l2 : Bool) (side : Side) (limit : ℚ)
    (orderbook : OrderBook) (offset : ℚ) : Bool :=
  if !has_l2 then true
  else if side = .buy then
    match orderbook.asks with
    | [] => false
    | (price, _) :: _ => decide (limit * (1 - offset) ≥ price)
  else
    match orderbook.bids with
    | [] => false
    | (price, _) :: _ => decide (limit * (1 + offset) ≤ price)

/-- `Exchange.check_dry_limit_order_filled` (exchange.py:1206-1233). -/
def check_dry_limit_order_filled (has_l2 : Bool) (taker_fee maker_fee : ℚ)
    (order : DryOrder) (immediate : Bool) (orderbook : OrderBook) :
    DryOrder :=
  if order.status ≠ "closed" ∧ order.ordertype = "limit" ∧
      ¬order.ft_order_type_stoploss then
    if dry_is_price_crossed has_l2 order.side order.price orderbook 0 then
      add_dry_order_fee taker_fee maker_fee
        { order with
          status := "closed", filled := order.amount, remaining := 0 }
        (if immediate then "taker" else "maker")
    else order
  else order

/-- `Exchange.create_dry_run_order` (exchange.py:1043-1116).
`amount_to_precision` and `contract_size` model the amount sanitisation
`_contracts_to_amount(amount_to_precision(_amount_to_contracts(amount)))`
(the two contract helpers divide and multiply by the contract size);
`orderbook` is `some` exactly when `exchange_has("fetchL2OrderBook")`
made the source fetch one.  The id, symbol, datetime, timestamp and
`info` fields play no part in the claims and are left out. -/
def create_dry_run_order (has_l2 : Bool)
    (amount_to_precision price_to_precision : ℚ → ℚ) (contract_size : ℚ)
    (taker_fee maker_fee : ℚ) (orderbook : Option OrderBook)
    (ordertype : String) (side : Side) (amount rate : ℚ)
    (stop_loss : Bool) : DryOrder :=
  let amount' := (amount_to_precision (amount / contract_size)) * contract_size
  let dry_order : DryOrder :=
    { price := rate, average := rate, amount := amount',
      cost := amount' * rate, ordertype := ordertype, side := side,
      filled := 0, remaining := amount', status := "open", fee := none,
      ft_order_type_stoploss := stop_loss }
  let dry_order :=
    if ordertype = "limit" ∧ orderbook.isSome then
      if dry_is_price_crossed has_l2 side rate
          (orderbook.getD ⟨[], []⟩) (1/100) then
        { dry_order with ordertype := "market" }
      else dry_order
    else dry_order
  let dry_order :=
    if dry_order.ordertype = "market" ∧ ¬dry_order.ft_order_type_stoploss then
      let average := get_dry_market_fill_price has_l2 price_to_precision
        side amount rate (orderbook.getD ⟨[], []⟩)
      add_dry_order_fee taker_fee maker_fee
        { dry_order with
          average := average, filled := amount', remaining := 0,
          status := "closed", cost := amount' * average }
        "taker"
    else dry_order
  check_dry_limit_order_filled has_l2 taker_fee maker_fee dry_order true
    (orderbook.getD ⟨[], []⟩)

/-- Total volume of a book side. -/
def totalVolume (levels : List (ℚ × ℚ)) : ℚ :=
  (levels.map Prod.snd).sum

/-- Sum of `price · volume` over all levels of a book side. -/
def valueSum (levels : List (ℚ × ℚ)) : ℚ :=
  (levels.map (fun pv => pv.1 * pv.2)).sum

/-- Price of the deepest (last) level, or the fallback for an empty side. -/
def lastPrice : List (ℚ × ℚ) → ℚ → ℚ
  | [], fallback => fallback
  | (price, _) :: rest, _ => lastPrice rest price

/-- The spec's §4.5 description of the walk: iterate the book side,
summing `price · volume` until the amount is consumed. -/
def consumedValue : List (ℚ × ℚ) → ℚ → ℚ
  | [], _ => 0
  | (price, volume) :: rest, amount =>
    if amount ≤ volume then amount * price
    else volume * price + consumedValue rest (amount - volume)

/-- A row of the combined funding/mark dataframe produced by
`combine_funding_and_mark`: the `date` key with the `open_mark` and
`open_fund` columns (the only columns `calculate_funding_fees` reads).
Input dataframes are lists of `(date, open)` pairs. -/
structure CombinedRow where
  date : ℤ
  open_mark : ℚ
  open_fund : ℚ
  deriving DecidableEq, Repr

/-- `Exchange.combine_funding_and_mark` (exchange.py:3604-3638).
With no synthetic rate, an inner merge of mark and funding rows on
`date`; with a synthetic `futures_funding_rate`, either a full fill-up
(no funding rows at all) or a left merge whose unmatched rows get the
synthetic rate via `fillna`. -/
def combine_funding_and_mark (funding_rates mark_rates : List (ℤ × ℚ))
    (futures_funding_rate : Option ℚ) : List CombinedRow :=
  match futures_funding_rate with
  | none =>
    mark_rates.flatMap fun mr =>
      (funding_rates.filter fun fr => fr.1 = mr.1).map fun fr =>
        ⟨mr.1, mr.2, fr.2⟩
  | some r =>
    if funding_rates.isEmpty then
      mark_rates.map fun mr => ⟨mr.1, mr.2, r⟩
    else
      mark_rates.flatMap fun mr =>
        match funding_rates.filter fun fr => fr.1 = mr.1 with
        | [] => [⟨mr.1, mr.2, r⟩]
        | fs => fs.map fun fr => ⟨mr.1, mr.2, fr.2⟩

/-- `Exchange.calculate_funding_fees` (exchange.py:3640-3667): sum
`open_fund · open_mark · amount` over the rows dated within
`[open_date, close_date]`, negated for longs.  (The `isnan` guard cannot
fire over `ℚ`; an empty frame sums to zero either way.) -/
def calculate_funding_fees (df : List CombinedRow) (amount : ℚ)
    (is_short : Bool) (open_date close_date : ℤ) : ℚ :=
  let df1 := df.filter fun row =>
    open_date ≤ row.date ∧ row.date ≤ close_date
  let fees := (df1.map fun row => row.open_fund * row.open_mark * amount).sum
  if is_short then fees else -fees

/-- The sub-loops `_async_get_trade_history_time` and
`_async_get_trade_history_id` that `_async_get_trade_history` can
dispatch to. -/
inductive TradePaginationCall where
  | byTime
  | byId
  deriving DecidableEq, Repr

/-- `Exchange._async_get_trade_history` (exchange.py:3148-3177): dispatch
on the venue's `_trades_pagination` capability string; the chosen
sub-loop is represented by its tag.  Neither `"time"` nor `"id"` raises
`OperationalException` ("does use neither time, nor id based
pagination"). -/
def async_get_trade_history (trades_pagination : String) :
    Except FtError TradePaginationCall :=
  if trades_pagination = "time" then .ok .byTime
  else if trades_pagination = "id" then .ok .byId
  else .error .operationalException

/-- `Exchange.dry_run_liquidation_price` (exchange.py:3744-3797).
`inverse` is `market["inverse"]`, `taker_fee_rate` is `market["taker"]`,
and `mm_ratio` is the first component of
`get_maintenance_ratio_and_amt(pair, stake_amount)`. -/
def dry_run_liquidation_price (trading_mode : TradingMode)
    (margin_mode : MarginMode) (inverse : Bool) (taker_fee_rate mm_ratio : ℚ)
    (open_rate : ℚ) (is_short : Bool) (amount wallet_balance : ℚ) :
    Except FtError ℚ :=
  if trading_mode = .futures ∧ margin_mode = .isolated then
    if inverse then .error .operationalException
    else
      let value := wallet_balance / amount
      let mm_ratio_taker := mm_ratio + taker_fee_rate
      if is_short then .ok ((open_rate + value) / (1 + mm_ratio_taker))
      else .ok ((open_rate - value) / (1 - mm_ratio_taker))
  else .error .operationalException

/-- `Exchange.get_liquidation_price` (exchange.py:3695-3742).
`has_fetch_positions` is `exchange_has("fetchPositions")` and
`fetched_liquidation_price` is the `liquidationPrice` of the first
position returned on the live path (`none` when there are no positions
or the venue reports no price). -/
def get_liquidation_price (trading_mode : TradingMode)
    (margin_mode : MarginMode) (dry_run has_fetch_positions inverse : Bool)
    (liquidation_buffer : ℚ) (fetched_liquidation_price : Option ℚ)
    (taker_fee_rate mm_ratio open_rate : ℚ) (is_short : Bool)
    (amount wallet_balance : ℚ) : Except FtError (Option ℚ) :=
  if trading_mode = .spot then .ok none
  else if trading_mode ≠ .futures then .error .operationalException
  else
    let liquidation_price : Except FtError (Option ℚ) :=
      if dry_run || !has_fetch_positions then
        (dry_run_liquidation_price trading_mode margin_mode inverse
          taker_fee_rate mm_ratio open_rate is_short amount
          wallet_balance).map some
      else .ok fetched_liquidation_price
    match liquidation_price with
    | .error e => .error e
    | .ok none => .ok none
    | .ok (some lp) =>
      let buffer_amount := |open_rate - lp| * liquidation_buffer
      let liquidation_price_buffer :=
        if is_short then lp - buffer_amount else lp + buffer_amount
      .ok (some (max liquidation_price_buffer 0))

/-- Floor division plus a carry for a nonzero remainder is ceiling division. -/
theorem div_add_mod_carry (n L : ℕ) (hL : 0 < L) :
    n / L + (if n % L = 0 then 0 else 1) = (n + L - 1) / L := by
  have hmod := Nat.div_add_mod n L
  have hlt : n % L < L := Nat.mod_lt _ hL
  by_cases h : n % L = 0
  · have hn : n + L - 1 = L * (n / L) + (L - 1) := by omega
    have h2 : (L * (n / L) + (L - 1)) / L = n / L + (L - 1) / L :=
      Nat.mul_add_div hL _ _
    have h3 : (L - 1) / L = 0 := Nat.div_eq_of_lt (by omega)
    simp [h, hn, h2, h3]
  · have hpos : 1 ≤ n % L := Nat.pos_of_ne_zero h
    have hmul : L * (n / L + 1) = L * (n / L) + L := by ring
    have hn : n + L - 1 = L * (n / L + 1) + (n % L - 1) := by omega
    have h2 : (L * (n / L + 1) + (n % L - 1)) / L = n / L + 1 + (n % L - 1) / L :=
      Nat.mul_add_div hL _ _
    have h3 : (n % L - 1) / L = 0 := Nat.div_eq_of_lt (by omega)
    simp [h, hn, h2, h3]

/-- C1: for startup candle count `s` and candle limit `L > 0`,
`validate_required_startup_candles` computes
`required_candle_call_count = ⌈(s+1)/L⌉`; with `ohlcv_has_history = true`
a count above 5 is rejected with `ConfigurationError` and otherwise the
count is returned; `startup_candles = 600` with `candle_limit = 500` is
accepted with 2 calls, while `startup_candles = 3000` is rejected. -/
theorem validate_required_startup_candles_ceil_and_bound
    (s L : ℕ) (hL : 0 < L) :
    validate_required_startup_candles true s L =
      (if 5 < (s + 1 + L - 1) / L then Except.error FtError.configurationError
       else Except.ok ((s + 1 + L - 1) / L)) ∧
    validate_required_startup_candles true 600 500 = Except.ok 2 ∧
    validate_required_startup_candles true 3000 500 =
      Except.error FtError.configurationError := by
  refine ⟨?_, by rfl, by rfl⟩
  simp only [validate_required_startup_candles, reduceIte]
  rw [div_add_mod_carry (s + 1) L hL]

/-- Witness for C1 at `s = 600`, `L = 500`. -/
theorem validate_required_startup_candles_ceil_and_bound_witness :
    validate_required_startup_candles true 600 500 =
      (if 5 < (600 + 1 + 500 - 1) / 500 then Except.error FtError.configurationError
       else Except.ok ((600 + 1 + 500 - 1) / 500)) ∧
    validate_required_startup_candles true 600 500 = Except.ok 2 ∧
    validate_required_startup_candles true 3000 500 =
      Except.error FtError.configurationError :=
  validate_required_startup_candles_ceil_and_bound 600 500 (by decide)

/-- C2: the stop-limit rate is `stop_price · limit_ratio` for sells and
`stop_price · (2 − limit_ratio)` for buys, and `InvalidOrder` is raised
exactly when the derived limit rate lies on the wrong side of the stop
price (sell: limit rate strictly above the stop; buy: strictly below);
`stop_price = 100`, `limit_ratio = 1.01`, side sell yields limit rate 101
and raises `InvalidOrder`. -/
theorem get_stop_limit_rate_spec (p r : ℚ) :
    (get_stop_limit_rate p r Side.sell =
      if p < p * r then Except.error FtError.invalidOrderException
      else Except.ok (p * r)) ∧
    (get_stop_limit_rate p r Side.buy =
      if p * (2 - r) < p then Except.error FtError.invalidOrderException
      else Except.ok (p * (2 - r))) ∧
    (100 : ℚ) * (101 / 100) = 101 ∧
    get_stop_limit_rate 100 (101 / 100) Side.sell =
      Except.error FtError.invalidOrderException := by
  refine ⟨?_, ?_, by norm_num, by norm_num [get_stop_limit_rate]⟩
  · by_cases h : p < p * r
    · simp [get_stop_limit_rate, h]
    · simp [get_stop_limit_rate, h, not_lt.mp h]
  · by_cases h : p * (2 - r) < p
    · simp [get_stop_limit_rate, gt_iff_lt, h]
    · simp [get_stop_limit_rate, gt_iff_lt, h, not_lt.mp h]

/-- If some tier matches first, the source loop returns its leverage,
whatever `max_stake` value is threaded in. -/
theorem get_max_leverage_scan_of_firstMatch :
    ∀ (tiers : List LeverageTier) (stake : ℚ) (prior : Option ℚ) (m lev : ℚ),
      firstMatchingLeverage tiers stake prior = some lev →
      get_max_leverage_scan tiers stake prior m = Except.ok lev := by
  intro tiers
  induction tiers with
  | nil => intro stake prior m lev h; simp [firstMatchingLeverage] at h
  | cons t rest ih =>
    intro stake prior m lev h
    by_cases hc : tierMinStake prior t ≤ stake ∧ stake ≤ tierMaxStake t
    · rw [firstMatchingLeverage, if_pos hc] at h
      rw [get_max_leverage_scan, if_pos hc]
      exact congrArg Except.ok (Option.some.inj h)
    · rw [firstMatchingLeverage, if_neg hc] at h
      rw [get_max_leverage_scan, if_neg hc]
      exact ih stake (some t.maxLeverage) (tierMaxStake t) lev h

/-- If no tier matches and the stake exceeds the last tier's `max_stake`,
the source loop falls through to the `InvalidOrder` branch. -/
theorem get_max_leverage_scan_of_no_match :
    ∀ (tiers : List LeverageTier) (h : tiers ≠ []) (stake : ℚ)
      (prior : Option ℚ) (m : ℚ),
      firstMatchingLeverage tiers stake prior = none →
      tierMaxStake (tiers.getLast h) < stake →
      get_max_leverage_scan tiers stake prior m =
        Except.error FtError.invalidOrderException := by
  intro tiers
  induction tiers with
  | nil => intro h; exact absurd rfl h
  | cons t rest ih =>
    intro h stake prior m hF hlast
    by_cases hc : tierMinStake prior t ≤ stake ∧ stake ≤ tierMaxStake t
    · rw [firstMatchingLeverage, if_pos hc] at hF
      exact absurd hF (by simp)
    · rw [firstMatchingLeverage, if_neg hc] at hF
      rw [get_max_leverage_scan, if_neg hc]
      cases rest with
      | nil =>
        rw [List.getLast_singleton] at hlast
        simp [get_max_leverage_scan, hlast]
      | cons t2 rest2 =>
        refine ih (by simp) stake (some t.maxLeverage) (tierMaxStake t) hF ?_
        rwa [List.getLast_cons (by simp)] at hlast

/-- Evaluation of `get_max_leverage` on the example tiers at stake 2000:
the first tier's interval is `[0, 1000]`, the second tier's is
`[1000, 12500]`, so the second matches. -/
theorem get_max_leverage_ex_2000 :
    get_max_leverage exampleTiers 2000 = Except.ok 20 := by
  norm_num [get_max_leverage, get_max_leverage_scan, exampleTiers,
    tierMinStake, tierMaxStake]

/-- Evaluation of `get_max_leverage` on the example tiers at stake 6000:
the second tier's interval `[1000, 12500]` matches. -/
theorem get_max_leverage_ex_6000 :
    get_max_leverage exampleTiers 6000 = Except.ok 20 := by
  norm_num [get_max_leverage, get_max_leverage_scan, exampleTiers,
    tierMinStake, tierMaxStake]

/-- Evaluation of `get_max_leverage` on the example tiers at stake 2000000:
above the last tier's `max_stake = 100000`, so `InvalidOrder`. -/
theorem get_max_leverage_ex_2M :
    get_max_leverage exampleTiers 2000000 =
      Except.error FtError.invalidOrderException := by
  norm_num [get_max_leverage, get_max_leverage_scan, exampleTiers,
    tierMinStake, tierMaxStake]

/-- C3 counterexample: on the example tiers, a stake of 2000 falls into the
second tier's `[min_stake, max_stake] = [1000, 12500]` interval, so
`get_max_leverage` returns 20, not the claimed 50. -/
theorem get_max_leverage_stake_2k_counterexample :
    get_max_leverage exampleTiers 2000 = Except.ok 20 ∧
    get_max_leverage exampleTiers 2000 ≠ Except.ok 50 := by
  have h20 : get_max_leverage exampleTiers 2000 = Except.ok 20 :=
    get_max_leverage_ex_2000
  refine ⟨h20, fun h => ?_⟩
  have h2 : Except.ok (ε := FtError) (20 : ℚ) = Except.ok 50 := h20.symm.trans h
  injection h2 with h3
  norm_num at h3

/-- C3 (amended): `get_max_leverage` scans the tiers in ascending order with
`min_stake = minNotional / prior_tier_max_leverage` (first tier: its own
`maxLeverage`) and `max_stake = maxNotional / maxLeverage`, returns the first
tier's `maxLeverage` whose interval contains the stake, raises
`InvalidOrder` for a stake above the last tier's `max_stake` when no tier
matched, and returns the first tier's `maxLeverage` for a zero stake.  On
the example tiers, stake 2000 returns 20, stake 6000 returns 20, and stake
2000000 raises `InvalidOrder`. -/
theorem get_max_leverage_spec (t0 : LeverageTier) (rest : List LeverageTier)
    (stake lev : ℚ) (hstake : 0 ≤ stake) :
    (get_max_leverage (t0 :: rest) 0 = Except.ok t0.maxLeverage) ∧
    (stake ≠ 0 →
      firstMatchingLeverage (t0 :: rest) stake none = some lev →
      get_max_leverage (t0 :: rest) stake = Except.ok lev) ∧
    (stake ≠ 0 →
      firstMatchingLeverage (t0 :: rest) stake none = none →
      tierMaxStake ((t0 :: rest).getLast (by simp)) < stake →
      get_max_leverage (t0 :: rest) stake =
        Except.error FtError.invalidOrderException) ∧
    get_max_leverage exampleTiers 2000 = Except.ok 20 ∧
    get_max_leverage exampleTiers 6000 = Except.ok 20 ∧
    get_max_leverage exampleTiers 2000000 =
      Except.error FtError.invalidOrderException := by
  refine ⟨by simp [get_max_leverage], ?_, ?_, get_max_leverage_ex_2000,
    get_max_leverage_ex_6000, get_max_leverage_ex_2M⟩
  · intro h0 hF
    rw [get_max_leverage, if_neg h0]
    exact get_max_leverage_scan_of_firstMatch _ _ _ _ _ hF
  · intro h0 hF hlast
    rw [get_max_leverage, if_neg h0]
    exact get_max_leverage_scan_of_no_match _ (by simp) _ _ _ hF hlast

/-- Witness for C3 at the example tiers and stake 6000. -/
theorem get_max_leverage_spec_witness :
    (get_max_leverage
        (LeverageTier.mk 0 50000 (4/1000) 50 ::
          [LeverageTier.mk 50000 250000 (5/1000) 20,
           LeverageTier.mk 250000 1000000 (1/100) 10]) 0 =
      Except.ok (LeverageTier.mk 0 50000 (4/1000) 50).maxLeverage) ∧
    ((6000 : ℚ) ≠ 0 →
      firstMatchingLeverage
          (LeverageTier.mk 0 50000 (4/1000) 50 ::
            [LeverageTier.mk 50000 250000 (5/1000) 20,
             LeverageTier.mk 250000 1000000 (1/100) 10]) 6000 none = some 20 →
      get_max_leverage
          (LeverageTier.mk 0 50000 (4/1000) 50 ::
            [LeverageTier.mk 50000 250000 (5/1000) 20,
             LeverageTier.mk 250000 1000000 (1/100) 10]) 6000 = Except.ok 20) ∧
    ((6000 : ℚ) ≠ 0 →
      firstMatchingLeverage
          (LeverageTier.mk 0 50000 (4/1000) 50 ::
            [LeverageTier.mk 50000 250000 (5/1000) 20,
             LeverageTier.mk 250000 1000000 (1/100) 10]) 6000 none = none →
      tierMaxStake
          ((LeverageTier.mk 0 50000 (4/1000) 50 ::
            [LeverageTier.mk 50000 250000 (5/1000) 20,
             LeverageTier.mk 250000 1000000 (1/100) 10]).getLast (by simp)) <
        6000 →
      get_max_leverage
          (LeverageTier.mk 0 50000 (4/1000) 50 ::
            [LeverageTier.mk 50000 250000 (5/1000) 20,
             LeverageTier.mk 250000 1000000 (1/100) 10]) 6000 =
        Except.error FtError.invalidOrderException) ∧
    get_max_leverage exampleTiers 2000 = Except.ok 20 ∧
    get_max_leverage exampleTiers 6000 = Except.ok 20 ∧
    get_max_leverage exampleTiers 2000000 =
      Except.error FtError.invalidOrderException :=
  get_max_leverage_spec (LeverageTier.mk 0 50000 (4/1000) 50)
    [LeverageTier.mk 50000 250000 (5/1000) 20,
     LeverageTier.mk 250000 1000000 (1/100) 10] 6000 20 (by norm_num)

/-- Concrete evaluation of the dry-run estimate for a short position:
`open_rate = 100`, `amount = 1`, `wallet_balance = 10`,
`mm_ratio = taker = 1/100` give `liq = 110 / 1.02 = 5500/51`. -/
theorem dry_run_liquidation_price_short_ex :
    dry_run_liquidation_price TradingMode.futures MarginMode.isolated false
      (1/100) (1/100) 100 true 1 10 = Except.ok (5500/51) := by
  norm_num [dry_run_liquidation_price]

/-- Concrete evaluation of `get_liquidation_price` for the same short
position with `liquidation_buffer = 1/20`: the buffer
`|100 − 5500/51| · (1/20) = 20/51` is subtracted, giving `5480/51`. -/
theorem get_liquidation_price_short_ex :
    get_liquidation_price TradingMode.futures MarginMode.isolated true true
      false (1/20) none (1/100) (1/100) 100 true 1 10 =
      Except.ok (some (5480/51)) := by
  simp only [get_liquidation_price, dry_run_liquidation_price, Except.map]
  norm_num
  rw [if_neg (fun h => TradingMode.noConfusion h),
    abs_of_nonneg (by norm_num : (0:ℚ) ≤ 400/51),
    max_eq_left (by norm_num : (0:ℚ) ≤ 5500/51 - 400/51 * (1/20))]
  norm_num

/-- C4 counterexample: for a short position the buffer is subtracted from
the liquidation estimate, so the value returned by `get_liquidation_price`
(`5480/51`) is strictly below the unbuffered estimate (`5500/51`), i.e.
shifted toward zero, not away from it. -/
theorem get_liquidation_price_buffer_counterexample :
    dry_run_liquidation_price TradingMode.futures MarginMode.isolated false
      (1/100) (1/100) 100 true 1 10 = Except.ok (5500/51) ∧
    get_liquidation_price TradingMode.futures MarginMode.isolated true true
      false (1/20) none (1/100) (1/100) 100 true 1 10 =
      Except.ok (some (5480/51)) ∧
    (5480/51 : ℚ) < 5500/51 :=
  ⟨dry_run_liquidation_price_short_ex, get_liquidation_price_short_ex,
    by norm_num⟩

/-- C4 (amended): on isolated linear futures the dry-run liquidation
estimate is `(o + w/a) / (1 + m + f)` for shorts and
`(o − w/a) / (1 − m − f)` for longs; inverse contracts are rejected; and
the buffer `|o − liq| · liquidation_buffer` shifts the value returned by
`get_liquidation_price` toward the entry price — downward for shorts and
upward for longs — clamped below at zero. -/
theorem liquidation_price_spec (o w a m f b : ℚ) (ha : 0 < a) (hb : 0 ≤ b) :
    (dry_run_liquidation_price TradingMode.futures MarginMode.isolated false
        f m o true a w = Except.ok ((o + w / a) / (1 + (m + f)))) ∧
    (dry_run_liquidation_price TradingMode.futures MarginMode.isolated false
        f m o false a w = Except.ok ((o - w / a) / (1 - (m + f)))) ∧
    (∀ s : Bool,
      dry_run_liquidation_price TradingMode.futures MarginMode.isolated true
        f m o s a w = Except.error FtError.operationalException) ∧
    (get_liquidation_price TradingMode.futures MarginMode.isolated true true
        false b none f m o true a w =
      Except.ok (some
        (max ((o + w / a) / (1 + (m + f)) -
          |o - (o + w / a) / (1 + (m + f))| * b) 0)) ∧
      max ((o + w / a) / (1 + (m + f)) -
          |o - (o + w / a) / (1 + (m + f))| * b) 0 ≤
        max ((o + w / a) / (1 + (m + f))) 0) ∧
    (get_liquidation_price TradingMode.futures MarginMode.isolated true true
        false b none f m o false a w =
      Except.ok (some
        (max ((o - w / a) / (1 - (m + f)) +
          |o - (o - w / a) / (1 - (m + f))| * b) 0)) ∧
      max ((o - w / a) / (1 - (m + f))) 0 ≤
        max ((o - w / a) / (1 - (m + f)) +
          |o - (o - w / a) / (1 - (m + f))| * b) 0) := by
  have hbuf : ∀ x y : ℚ, 0 ≤ |x - y| * b :=
    fun x y => mul_nonneg (abs_nonneg _) hb
  refine ⟨by simp [dry_run_liquidation_price], by simp [dry_run_liquidation_price],
    fun s => by simp [dry_run_liquidation_price], ⟨?_, ?_⟩, ⟨?_, ?_⟩⟩
  · simp [get_liquidation_price, dry_run_liquidation_price, Except.map]
  · exact max_le_max (by have := hbuf o ((o + w / a) / (1 + (m + f))); linarith)
      le_rfl
  · simp [get_liquidation_price, dry_run_liquidation_price, Except.map]
  · exact max_le_max (by have := hbuf o ((o - w / a) / (1 - (m + f))); linarith)
      le_rfl

/-- Witness for C4 at `o = 100`, `w = 10`, `a = 1`, `m = f = 1/100`,
`b = 1/20`. -/
theorem liquidation_price_spec_witness :
    (dry_run_liquidation_price TradingMode.futures MarginMode.isolated false
        (1/100) (1/100) 100 true 1 10 =
      Except.ok ((100 + 10 / 1) / (1 + (1/100 + 1/100)))) ∧
    (dry_run_liquidation_price TradingMode.futures MarginMode.isolated false
        (1/100) (1/100) 100 false 1 10 =
      Except.ok ((100 - 10 / 1) / (1 - (1/100 + 1/100)))) ∧
    (∀ s : Bool,
      dry_run_liquidation_price TradingMode.futures MarginMode.isolated true
        (1/100) (1/100) 100 s 1 10 =
        Except.error FtError.operationalException) ∧
    (get_liquidation_price TradingMode.futures MarginMode.isolated true true
        false (1/20) none (1/100) (1/100) 100 true 1 10 =
      Except.ok (some
        (max ((100 + 10 / 1) / (1 + (1/100 + 1/100)) -
          |100 - (100 + 10 / 1) / (1 + (1/100 + 1/100))| * (1/20)) 0)) ∧
      max (((100 : ℚ) + 10 / 1) / (1 + (1/100 + 1/100)) -
          |100 - (100 + 10 / 1) / (1 + (1/100 + 1/100))| * (1/20)) 0 ≤
        max ((100 + 10 / 1) / (1 + (1/100 + 1/100))) 0) ∧
    (get_liquidation_price TradingMode.futures MarginMode.isolated true true
        false (1/20) none (1/100) (1/100) 100 false 1 10 =
      Except.ok (some
        (max ((100 - 10 / 1) / (1 - (1/100 + 1/100)) +
          |100 - (100 - 10 / 1) / (1 - (1/100 + 1/100))| * (1/20)) 0)) ∧
      max (((100 : ℚ) - 10 / 1) / (1 - (1/100 + 1/100))) 0 ≤
        max ((100 - 10 / 1) / (1 - (1/100 + 1/100)) +
          |100 - (100 - 10 / 1) / (1 - (1/100 + 1/100))| * (1/20)) 0) :=
  liquidation_price_spec 100 10 1 (1/100) (1/100) (1/20) (by norm_num)
    (by norm_num)

/-- C10: `get_liquidation_price` returns `None` in spot mode, and whenever
it returns a number that number is non-negative — the buffered price is
clamped below at zero for longs and shorts alike. -/
theorem get_liquidation_price_spot_and_nonneg :
    (∀ (mm : MarginMode) (dry hp inv : Bool) (b : ℚ) (fl : Option ℚ)
      (f m o : ℚ) (s : Bool) (a w : ℚ),
      get_liquidation_price TradingMode.spot mm dry hp inv b fl f m o s a w =
        Except.ok none) ∧
    (∀ (tm : TradingMode) (mm : MarginMode) (dry hp inv : Bool) (b : ℚ)
      (fl : Option ℚ) (f m o : ℚ) (s : Bool) (a w x : ℚ),
      get_liquidation_price tm mm dry hp inv b fl f m o s a w =
        Except.ok (some x) → 0 ≤ x) := by
  constructor
  · intro mm dry hp inv b fl f m o s a w
    simp [get_liquidation_price]
  · intro tm mm dry hp inv b fl f m o s a w x h
    cases tm with
    | spot => simp [get_liquidation_price] at h
    | margin => simp [get_liquidation_price] at h
    | futures =>
      simp only [get_liquidation_price, reduceCtorEq, reduceIte, ne_eq,
        not_true_eq_false, not_false_eq_true] at h
      rcases hE : (if (dry || !hp) = true then
          (dry_run_liquidation_price TradingMode.futures mm inv f m o s a
            w).map some
        else Except.ok fl) with e | ov
      · rw [hE] at h; simp at h
      · rw [hE] at h
        cases ov with
        | none => simp at h
        | some lp =>
          simp only [Except.ok.injEq, Option.some.injEq] at h
          rw [← h]
          exact le_max_right _ 0

/-- Witness for C10: spot mode returns `None`, and the short example
returns the non-negative `5480/51`. -/
theorem get_liquidation_price_spot_and_nonneg_witness :
    get_liquidation_price TradingMode.spot MarginMode.isolated true true
      false 0 none 0 0 0 true 1 1 = Except.ok none ∧ (0 : ℚ) ≤ 5480/51 :=
  ⟨get_liquidation_price_spot_and_nonneg.1 MarginMode.isolated true true
      false 0 none 0 0 0 true 1 1,
    get_liquidation_price_spot_and_nonneg.2 TradingMode.futures
      MarginMode.isolated true true false (1/20) none (1/100) (1/100) 100
      true 1 10 (5480/51) get_liquidation_price_short_ex⟩

/-- A walk with nothing left to fill returns the accumulator. -/
theorem dry_fill_loop_zero (levels : List (ℚ × ℚ)) :
    ∀ f lp, dry_fill_loop levels 0 f lp = f := by
  cases levels with
  | nil => intro f lp; simp [dry_fill_loop]
  | cons pv rest => intro f lp; obtain ⟨p, v⟩ := pv; simp [dry_fill_loop]

/-- When the book side holds enough volume, the source loop accumulates
exactly the spec's `consumedValue`. -/
theorem dry_fill_loop_consume :
    ∀ (levels : List (ℚ × ℚ)) (A f lp : ℚ), 0 < A →
      A ≤ totalVolume levels →
      dry_fill_loop levels A f lp = f + consumedValue levels A := by
  intro levels
  induction levels with
  | nil =>
    intro A f lp hA htot
    exfalso
    simp [totalVolume] at htot
    linarith
  | cons pv rest ih =>
    obtain ⟨p, v⟩ := pv
    intro A f lp hA htot
    have htot' : A ≤ v + totalVolume rest := by simpa [totalVolume] using htot
    simp only [dry_fill_loop]
    rw [if_pos hA]
    by_cases hlt : A < v
    · rw [if_pos hlt, consumedValue, if_pos (le_of_lt hlt)]
    · rw [if_neg hlt]
      push_neg at hlt
      by_cases heq : A ≤ v
      · have hAv : A = v := le_antisymm heq hlt
        rw [consumedValue, if_pos heq, ← hAv, sub_self, dry_fill_loop_zero]
      · push_neg at heq
        rw [consumedValue, if_neg (not_le.mpr heq),
          ih (A - v) (f + v * p) p (by linarith) (by linarith)]
        ring

/-- A book side with non-negative volumes has non-negative total volume. -/
theorem totalVolume_nonneg (levels : List (ℚ × ℚ))
    (hv : ∀ pv ∈ levels, 0 ≤ pv.2) : 0 ≤ totalVolume levels := by
  unfold totalVolume
  apply List.sum_nonneg
  intro x hx
  obtain ⟨pv, hpv, rfl⟩ := List.mem_map.mp hx
  exact hv pv hpv

/-- When the amount exceeds the total volume, the source loop prices the
remainder at the deepest level's price (the `for … else` arm). -/
theorem dry_fill_loop_overflow :
    ∀ (levels : List (ℚ × ℚ)) (A f lp : ℚ),
      (∀ pv ∈ levels, 0 ≤ pv.2) → totalVolume levels < A →
      dry_fill_loop levels A f lp =
        f + valueSum levels +
          (A - totalVolume levels) * lastPrice levels lp := by
  intro levels
  induction levels with
  | nil =>
    intro A f lp _ _
    simp [dry_fill_loop, valueSum, totalVolume, lastPrice]
  | cons pv rest ih =>
    obtain ⟨p, v⟩ := pv
    intro A f lp hv htot
    have hv0 : 0 ≤ v := (hv (p, v) (List.mem_cons_self _ _))
    have hrest : ∀ pv ∈ rest, 0 ≤ pv.2 :=
      fun pv h => hv pv (List.mem_cons_of_mem _ h)
    have hrt : 0 ≤ totalVolume rest := totalVolume_nonneg rest hrest
    have htot' : v + totalVolume rest < A := by simpa [totalVolume] using htot
    have hA : 0 < A := by linarith
    simp only [dry_fill_loop]
    rw [if_pos hA, if_neg (by linarith : ¬ A < v),
      ih (A - v) (f + v * p) p hrest (by linarith)]
    simp only [valueSum, totalVolume, lastPrice, List.map_cons,
      List.sum_cons]
    ring

/-- A consumed walk over a well-formed book yields a non-negative value. -/
theorem consumedValue_nonneg :
    ∀ (levels : List (ℚ × ℚ)) (A : ℚ),
      (∀ pv ∈ levels, 0 ≤ pv.1 ∧ 0 ≤ pv.2) → 0 ≤ A →
      0 ≤ consumedValue levels A := by
  intro levels
  induction levels with
  | nil => intro A _ _; simp [consumedValue]
  | cons pv rest ih =>
    obtain ⟨p, v⟩ := pv
    intro A hwf hA
    have hp : 0 ≤ p := (hwf (p, v) (List.mem_cons_self _ _)).1
    have hv : 0 ≤ v := (hwf (p, v) (List.mem_cons_self _ _)).2
    simp only [consumedValue]
    by_cases h : A ≤ v
    · rw [if_pos h]; exact mul_nonneg hA hp
    · rw [if_neg h]
      push_neg at h
      have hih := ih (A - v)
        (fun pv hpv => hwf pv (List.mem_cons_of_mem _ hpv)) (by linarith)
      have hvp : 0 ≤ v * p := mul_nonneg hv hp
      linarith

/-- C5: for a dry-run market order of amount `A > 0` on a book side with
enough volume, the fill estimate is `consumedValue / A` clamped to
`rate · 1.05` from above for buys and to `rate · 0.95` from below for
sells; `get_dry_market_fill_price` applies the venue price rounding to
that value; on `asks = [(10,1),(11,2),(12,5)]` a buy of 3 gives the raw
average `32/3`; and the dry-run market order built by
`create_dry_run_order` is closed immediately with its fee attributed at
the taker rate. -/
theorem get_dry_market_fill_price_spec (side : Side) (A r : ℚ)
    (levels : List (ℚ × ℚ)) (pp ap : ℚ → ℚ) (ob : OrderBook)
    (cs tf mf : ℚ) (hA : 0 < A)
    (hwf : ∀ pv ∈ levels, 0 ≤ pv.1 ∧ 0 ≤ pv.2)
    (hcons : A ≤ totalVolume levels) :
    (forecast_avg_filled_price Side.buy A r levels =
      min (consumedValue levels A / A) (r * (1 + 5/100))) ∧
    (forecast_avg_filled_price Side.sell A r levels =
      max (consumedValue levels A / A) (r * (1 - 5/100))) ∧
    forecast_avg_filled_price Side.buy A r levels ≤ r * (1 + 5/100) ∧
    r * (1 - 5/100) ≤ forecast_avg_filled_price Side.sell A r levels ∧
    (get_dry_market_fill_price true pp side A r ob =
      pp (forecast_avg_filled_price side A r
        (if side = Side.buy then ob.asks else ob.bids))) ∧
    forecast_avg_filled_price Side.buy 3 r [(10, 1), (11, 2), (12, 5)] =
      min (32/3) (r * (1 + 5/100)) ∧
    ((create_dry_run_order true ap pp cs tf mf (some ob) "market" side A r
        false).status = "closed" ∧
      (create_dry_run_order true ap pp cs tf mf (some ob) "market" side A r
        false).average = get_dry_market_fill_price true pp side A r ob ∧
      (create_dry_run_order true ap pp cs tf mf (some ob) "market" side A r
        false).fee = some
          ⟨(create_dry_run_order true ap pp cs tf mf (some ob) "market"
            side A r false).cost * tf, tf⟩) := by
  have hcv : 0 ≤ consumedValue levels A :=
    consumedValue_nonneg levels A hwf (le_of_lt hA)
  refine ⟨?_, ?_, ?_, ?_, rfl, ?_, ?_, ?_, ?_⟩
  · simp only [forecast_avg_filled_price, reduceIte]
    rw [dry_fill_loop_consume levels A 0 0 hA hcons, zero_add,
      max_eq_left hcv]
  · simp only [forecast_avg_filled_price, reduceCtorEq, reduceIte]
    rw [dry_fill_loop_consume levels A 0 0 hA hcons, zero_add,
      max_eq_left hcv]
  · simp only [forecast_avg_filled_price, reduceIte]
    exact min_le_right _ _
  · simp only [forecast_avg_filled_price, reduceCtorEq, reduceIte]
    exact le_max_right _ _
  · simp [forecast_avg_filled_price, dry_fill_loop]
    norm_num
  · simp [create_dry_run_order, check_dry_limit_order_filled,
      add_dry_order_fee]
  · simp [create_dry_run_order, check_dry_limit_order_filled,
      add_dry_order_fee]
  · simp [create_dry_run_order, check_dry_limit_order_filled,
      add_dry_order_fee]

/-- Witness for C5: a buy of 3 against asks `[(10,1),(11,2),(12,5)]` at
rate 10. -/
theorem get_dry_market_fill_price_spec_witness :
    (forecast_avg_filled_price Side.buy 3 10 [(10, 1), (11, 2), (12, 5)] =
      min (consumedValue [(10, 1), (11, 2), (12, 5)] 3 / 3)
        (10 * (1 + 5/100))) ∧
    (forecast_avg_filled_price Side.sell 3 10 [(10, 1), (11, 2), (12, 5)] =
      max (consumedValue [(10, 1), (11, 2), (12, 5)] 3 / 3)
        (10 * (1 - 5/100))) ∧
    forecast_avg_filled_price Side.buy 3 10 [(10, 1), (11, 2), (12, 5)] ≤
      10 * (1 + 5/100) ∧
    10 * (1 - 5/100) ≤
      forecast_avg_filled_price Side.sell 3 10 [(10, 1), (11, 2), (12, 5)] ∧
    (get_dry_market_fill_price true id Side.buy 3 10
        (OrderBook.mk [] [(10, 1), (11, 2), (12, 5)]) =
      id (forecast_avg_filled_price Side.buy 3 10
        (if Side.buy = Side.buy then
          (OrderBook.mk [] [(10, 1), (11, 2), (12, 5)]).asks
        else (OrderBook.mk [] [(10, 1), (11, 2), (12, 5)]).bids))) ∧
    forecast_avg_filled_price Side.buy 3 10 [(10, 1), (11, 2), (12, 5)] =
      min (32/3) (10 * (1 + 5/100)) ∧
    ((create_dry_run_order true id id 1 (2/1000) (1/1000)
        (some (OrderBook.mk [] [(10, 1), (11, 2), (12, 5)])) "market"
        Side.buy 3 10 false).status = "closed" ∧
      (create_dry_run_order true id id 1 (2/1000) (1/1000)
        (some (OrderBook.mk [] [(10, 1), (11, 2), (12, 5)])) "market"
        Side.buy 3 10 false).average =
        get_dry_market_fill_price true id Side.buy 3 10
          (OrderBook.mk [] [(10, 1), (11, 2), (12, 5)]) ∧
      (create_dry_run_order true id id 1 (2/1000) (1/1000)
        (some (OrderBook.mk [] [(10, 1), (11, 2), (12, 5)])) "market"
        Side.buy 3 10 false).fee = some
          ⟨(create_dry_run_order true id id 1 (2/1000) (1/1000)
            (some (OrderBook.mk [] [(10, 1), (11, 2), (12, 5)])) "market"
            Side.buy 3 10 false).cost * (2/1000), 2/1000⟩) :=
  get_dry_market_fill_price_spec Side.buy 3 10 [(10, 1), (11, 2), (12, 5)]
    id id (OrderBook.mk [] [(10, 1), (11, 2), (12, 5)]) 1 (2/1000) (1/1000)
    (by norm_num) (by norm_num) (by norm_num [totalVolume])

/-- C9: when the order amount exceeds the walked side's total volume, the
whole remainder is priced at the deepest level's price, the sum is
divided by the amount, and the slippage clamp is applied — no failure
and no partial fill. -/
theorem get_dry_market_fill_price_overflow (A r : ℚ)
    (levels : List (ℚ × ℚ)) (hv : ∀ pv ∈ levels, 0 ≤ pv.2)
    (hover : totalVolume levels < A) :
    (forecast_avg_filled_price Side.buy A r levels =
      min (max (valueSum levels +
          (A - totalVolume levels) * lastPrice levels 0) 0 / A)
        (r * (1 + 5/100))) ∧
    (forecast_avg_filled_price Side.sell A r levels =
      max (max (valueSum levels +
          (A - totalVolume levels) * lastPrice levels 0) 0 / A)
        (r * (1 - 5/100))) := by
  constructor
  · simp only [forecast_avg_filled_price, reduceIte]
    rw [dry_fill_loop_overflow levels A 0 0 hv hover, zero_add]
  · simp only [forecast_avg_filled_price, reduceCtorEq, reduceIte]
    rw [dry_fill_loop_overflow levels A 0 0 hv hover, zero_add]

/-- Witness for C9: a buy of 5 against asks `[(10,1),(11,2)]` (total
volume 3): the remaining 2 units are priced at 11. -/
theorem get_dry_market_fill_price_overflow_witness :
    (forecast_avg_filled_price Side.buy 5 10 [(10, 1), (11, 2)] =
      min (max (valueSum [(10, 1), (11, 2)] +
          (5 - totalVolume [(10, 1), (11, 2)]) *
            lastPrice [(10, 1), (11, 2)] 0) 0 / 5)
        (10 * (1 + 5/100))) ∧
    (forecast_avg_filled_price Side.sell 5 10 [(10, 1), (11, 2)] =
      max (max (valueSum [(10, 1), (11, 2)] +
          (5 - totalVolume [(10, 1), (11, 2)]) *
            lastPrice [(10, 1), (11, 2)] 0) 0 / 5)
        (10 * (1 - 5/100))) :=
  get_dry_market_fill_price_overflow 5 10 [(10, 1), (11, 2)]
    (by norm_num) (by norm_num [totalVolume])

/-- The min bound for a market carrying only cost limits. -/
theorem get_min_cost_only (cm cM cs p sl arp l : ℚ) (mft : Option ℚ)
    (hl0 : ¬ l = 0) :
    get_min_pair_stake_amount (MarketLimits.mk none none (some cm)
        (some cM)) cs p sl arp mft l =
      some ((cm * cs * stoploss_reserve_min arp sl / l : ℚ) : WithTop ℚ) := by
  simp [get_min_pair_stake_amount, get_stake_amount_limit,
    get_stake_amount_considering_leverage, stoploss_reserve_min, hl0]

/-- The max bound for a market carrying only cost limits, no tier cap. -/
theorem get_max_cost_only (cm cM cs p arp l : ℚ) (hl0 : ¬ l = 0) :
    get_max_pair_stake_amount (MarketLimits.mk none none (some cm)
        (some cM)) cs p arp none l =
      Except.ok ((cM * cs / l : ℚ) : WithTop ℚ) := by
  simp [get_max_pair_stake_amount, get_stake_amount_limit,
    get_stake_amount_considering_leverage, hl0]

/-- The clamped stoploss reserve at a 5% reserve and 10% stoploss:
`1.05 / 0.9 = 7/6`. -/
theorem stoploss_reserve_min_ex : stoploss_reserve_min (1/20) (1/10) = 7/6 := by
  unfold stoploss_reserve_min
  rw [abs_of_nonneg (by norm_num : (0:ℚ) ≤ 1/10),
    if_pos (by norm_num : ¬(1/10 : ℚ) = 1),
    min_eq_left (by norm_num), max_eq_left (by norm_num)]
  norm_num

/-- C6 counterexample: a tradable market with `cost_min = cost_max = 100`
and a 10% stoploss (5% amount reserve, leverage 1): the stoploss reserve
inflates the minimum stake to `100 · 7/6 = 350/3`, which exceeds the
maximum stake of 100. -/
theorem stake_amount_bounds_counterexample :
    get_min_pair_stake_amount (MarketLimits.mk none none (some 100)
        (some 100)) 1 1 (1/10) (1/20) none 1 =
      some ((350/3 : ℚ) : WithTop ℚ) ∧
    get_max_pair_stake_amount (MarketLimits.mk none none (some 100)
        (some 100)) 1 1 (1/20) none 1 = Except.ok ((100 : ℚ) : WithTop ℚ) ∧
    (100 : ℚ) < 350/3 := by
  have hmin := get_min_cost_only 100 100 1 1 (1/10) (1/20) 1 none
    (by norm_num)
  have hmax := get_max_cost_only 100 100 1 1 (1/20) 1 (by norm_num)
  rw [stoploss_reserve_min_ex] at hmin
  have hv1 : (100 * 1 * (7/6 : ℚ) / 1) = 350/3 := by norm_num
  have hv2 : (100 * 1 / 1 : ℚ) = 100 := by norm_num
  rw [hv1] at hmin
  rw [hv2] at hmax
  exact ⟨hmin, hmax, by norm_num⟩

/-- C6 (amended): both stake bounds are the consolidated market limits
divided by the supplied leverage — the minimum is the largest of the
reserve-scaled min limits, the maximum the smallest of the max limits and
the tier notional cap — and `min_stake ≤ max_stake` holds provided the
reserve-scaled minimum limits do not exceed the consolidated maximum
limits (the reserves can push the minimum above the maximum on a market
with tight limits, so the unconditional inequality fails). -/
theorem stake_amount_bounds_spec (cm am cM aM cs p sl arp l : ℚ)
    (mft : Option ℚ) (hl : 0 < l)
    (hpre : max (cm * cs * stoploss_reserve_min arp sl)
        (am * cs * p * margin_reserve_min arp) ≤
      min (cM * cs) (aM * cs * p))
    (htier : ∀ m, mft = some m → m ≠ 0 →
      max (cm * cs * stoploss_reserve_min arp sl)
        (am * cs * p * margin_reserve_min arp) ≤ m) :
    (get_min_pair_stake_amount (MarketLimits.mk (some am) (some aM)
        (some cm) (some cM)) cs p sl arp mft l =
      some ((max (cm * cs * stoploss_reserve_min arp sl)
        (am * cs * p * margin_reserve_min arp) / l : ℚ) : WithTop ℚ)) ∧
    (mft = none →
      get_max_pair_stake_amount (MarketLimits.mk (some am) (some aM)
          (some cm) (some cM)) cs p arp mft l =
        Except.ok ((min (cM * cs) (aM * cs * p) / l : ℚ) : WithTop ℚ)) ∧
    (∀ m, mft = some m → m ≠ 0 →
      get_max_pair_stake_amount (MarketLimits.mk (some am) (some aM)
          (some cm) (some cM)) cs p arp mft l =
        Except.ok ((min (min m (cM * cs)) (aM * cs * p) / l : ℚ) :
          WithTop ℚ)) ∧
    (∀ x y : ℚ,
      get_min_pair_stake_amount (MarketLimits.mk (some am) (some aM)
          (some cm) (some cM)) cs p sl arp mft l =
        some ((x : ℚ) : WithTop ℚ) →
      get_max_pair_stake_amount (MarketLimits.mk (some am) (some aM)
          (some cm) (some cM)) cs p arp mft l =
        Except.ok ((y : ℚ) : WithTop ℚ) →
      x ≤ y) := by
  have hl0 : ¬ l = 0 := hl.ne'
  have h1 : get_min_pair_stake_amount (MarketLimits.mk (some am) (some aM)
      (some cm) (some cM)) cs p sl arp mft l =
      some ((max (cm * cs * stoploss_reserve_min arp sl)
        (am * cs * p * margin_reserve_min arp) / l : ℚ) : WithTop ℚ) := by
    simp [get_min_pair_stake_amount, get_stake_amount_limit,
      get_stake_amount_considering_leverage, margin_reserve_min,
      stoploss_reserve_min, hl0]
  have h2 : get_max_pair_stake_amount (MarketLimits.mk (some am) (some aM)
      (some cm) (some cM)) cs p arp none l =
      Except.ok ((min (cM * cs) (aM * cs * p) / l : ℚ) : WithTop ℚ) := by
    simp [get_max_pair_stake_amount, get_stake_amount_limit,
      get_stake_amount_considering_leverage, hl0]
  have h3 : ∀ m, mft = some m → m ≠ 0 →
      get_max_pair_stake_amount (MarketLimits.mk (some am) (some aM)
        (some cm) (some cM)) cs p arp mft l =
      Except.ok ((min (min m (cM * cs)) (aM * cs * p) / l : ℚ) :
        WithTop ℚ) := by
    intro m hm hm0
    subst hm
    simp [get_max_pair_stake_amount, get_stake_amount_limit,
      get_stake_amount_considering_leverage, hl0, hm0]
  have h20 : ∀ m, mft = some m → m = 0 →
      get_max_pair_stake_amount (MarketLimits.mk (some am) (some aM)
        (some cm) (some cM)) cs p arp mft l =
      Except.ok ((min (cM * cs) (aM * cs * p) / l : ℚ) : WithTop ℚ) := by
    intro m hm hm0
    subst hm
    subst hm0
    simp [get_max_pair_stake_amount, get_stake_amount_limit,
      get_stake_amount_considering_leverage, hl0]
  refine ⟨h1, fun hm => hm ▸ h2, h3, ?_⟩
  intro x y hx hy
  rw [h1] at hx
  have hx' : x = max (cm * cs * stoploss_reserve_min arp sl)
      (am * cs * p * margin_reserve_min arp) / l := by
    have := Option.some.inj hx
    exact_mod_cast this.symm
  cases hmft : mft with
  | none =>
    rw [hmft] at hy
    rw [h2] at hy
    have hy' : y = min (cM * cs) (aM * cs * p) / l := by
      have := Except.ok.inj hy
      exact_mod_cast this.symm
    rw [hx', hy']
    exact (div_le_div_right hl).mpr hpre
  | some m =>
    by_cases hm0 : m = 0
    · rw [h20 m hmft hm0] at hy
      have hy' : y = min (cM * cs) (aM * cs * p) / l := by
        have := Except.ok.inj hy
        exact_mod_cast this.symm
      rw [hx', hy']
      exact (div_le_div_right hl).mpr hpre
    · rw [h3 m hmft hm0] at hy
      have hy' : y = min (min m (cM * cs)) (aM * cs * p) / l := by
        have := Except.ok.inj hy
        exact_mod_cast this.symm
      rw [hx', hy']
      refine (div_le_div_right hl).mpr ?_
      have hb := htier m hmft hm0
      refine le_min (le_min hb ?_) ?_
      · exact le_trans hpre ((min_le_left _ _))
      · exact le_trans hpre ((min_le_right _ _))

/-- Witness for C6 at `cost_min = amount_min = 1`,
`cost_max = amount_max = 1000`, unit price/contract size, zero stoploss,
5% reserve, leverage 2, no tier cap. -/
theorem stake_amount_bounds_spec_witness :
    (get_min_pair_stake_amount (MarketLimits.mk (some 1) (some 1000)
        (some 1) (some 1000)) 1 1 0 (1/20) none 2 =
      some ((max (1 * 1 * stoploss_reserve_min (1/20) 0)
        (1 * 1 * 1 * margin_reserve_min (1/20)) / 2 : ℚ) : WithTop ℚ)) ∧
    ((none : Option ℚ) = none →
      get_max_pair_stake_amount (MarketLimits.mk (some 1) (some 1000)
          (some 1) (some 1000)) 1 1 (1/20) none 2 =
        Except.ok ((min (1000 * 1) (1000 * 1 * 1) / 2 : ℚ) : WithTop ℚ)) ∧
    (∀ m : ℚ, (none : Option ℚ) = some m → m ≠ 0 →
      get_max_pair_stake_amount (MarketLimits.mk (some 1) (some 1000)
          (some 1) (some 1000)) 1 1 (1/20) none 2 =
        Except.ok ((min (min m (1000 * 1)) (1000 * 1 * 1) / 2 : ℚ) :
          WithTop ℚ)) ∧
    (∀ x y : ℚ,
      get_min_pair_stake_amount (MarketLimits.mk (some 1) (some 1000)
          (some 1) (some 1000)) 1 1 0 (1/20) none 2 =
        some ((x : ℚ) : WithTop ℚ) →
      get_max_pair_stake_amount (MarketLimits.mk (some 1) (some 1000)
          (some 1) (some 1000)) 1 1 (1/20) none 2 =
        Except.ok ((y : ℚ) : WithTop ℚ) →
      x ≤ y) :=
  stake_amount_bounds_spec 1 1 1000 1000 1 1 0 (1/20) 2 none (by norm_num)
    (by norm_num [stoploss_reserve_min, margin_reserve_min])
    (fun m hm _ => by simp at hm)

/-- C7: the dry-run funding fee is the sum of
`open_fund · open_mark · amount` over exactly the rows dated in the
closed interval `[open_date, close_date]`, negated for longs and returned
as-is for shorts; without a synthetic rate the tables are inner-joined on
the timestamp (a combined row exists exactly when both tables carry the
date), and with a synthetic rate a fill-value join is used instead
(unmatched mark rows get the synthetic rate, matched ones their funding
rate). -/
theorem calculate_funding_fees_spec (df : List CombinedRow) (amount : ℚ)
    (o c : ℤ) (mark fund : List (ℤ × ℚ)) (r : ℚ) :
    (calculate_funding_fees df amount true o c =
      ((df.filter fun row => o ≤ row.date ∧ row.date ≤ c).map
        fun row => row.open_fund * row.open_mark * amount).sum) ∧
    (calculate_funding_fees df amount false o c =
      -((df.filter fun row => o ≤ row.date ∧ row.date ≤ c).map
        fun row => row.open_fund * row.open_mark * amount).sum) ∧
    (∀ (d : ℤ) (om of' : ℚ),
      CombinedRow.mk d om of' ∈ combine_funding_and_mark fund mark none ↔
        ((d, om) ∈ mark ∧ (d, of') ∈ fund)) ∧
    (∀ (d : ℤ) (om : ℚ), (d, om) ∈ mark →
      ((∀ fr ∈ fund, fr.1 ≠ d) →
        CombinedRow.mk d om r ∈
          combine_funding_and_mark fund mark (some r)) ∧
      (∀ of', (d, of') ∈ fund →
        CombinedRow.mk d om of' ∈
          combine_funding_and_mark fund mark (some r))) := by
  refine ⟨rfl, rfl, ?_, ?_⟩
  · intro d om of'
    simp only [combine_funding_and_mark, List.mem_flatMap, List.mem_map,
      List.mem_filter]
    constructor
    · rintro ⟨⟨md, mo⟩, hm, ⟨fd, fo⟩, ⟨hf, hfd⟩, heq⟩
      simp only [CombinedRow.mk.injEq] at heq
      obtain ⟨hd, hom, hof⟩ := heq
      simp only [decide_eq_true_eq] at hfd
      subst hd
      subst hom
      subst hof
      subst hfd
      exact ⟨hm, hf⟩
    · rintro ⟨hm, hf⟩
      exact ⟨(d, om), hm, (d, of'), ⟨hf, by simp⟩, rfl⟩
  · intro d om hm
    constructor
    · intro hnone
      have hfil : fund.filter (fun fr => fr.1 = (d, om).1) = [] := by
        rw [List.filter_eq_nil_iff]
        intro a ha
        simp [hnone a ha]
      by_cases hemp : fund.isEmpty
      · simp only [combine_funding_and_mark, if_pos hemp, List.mem_map]
        exact ⟨(d, om), hm, rfl⟩
      · simp only [combine_funding_and_mark, if_neg hemp, List.mem_flatMap]
        exact ⟨(d, om), hm, by rw [hfil]; simp⟩
    · intro of' hf
      have hne : ¬ fund.isEmpty := by
        cases fund with
        | nil => simp at hf
        | cons a l => simp
      simp only [combine_funding_and_mark, if_neg hne, List.mem_flatMap]
      refine ⟨(d, om), hm, ?_⟩
      have hmemf : (d, of') ∈ fund.filter (fun fr => fr.1 = (d, om).1) := by
        rw [List.mem_filter]
        exact ⟨hf, by simp⟩
      cases hfil : fund.filter (fun fr => fr.1 = (d, om).1) with
      | nil => rw [hfil] at hmemf; simp at hmemf
      | cons x xs =>
        rw [hfil] at hmemf
        exact List.mem_map.mpr ⟨(d, of'), hmemf, rfl⟩

/-- Witness for C7 on the two-row frame
`[(ts 5, mark 2, fund 3), (ts 10, mark 4, fund 5)]` with window `[0, 6]`
and tables `mark = [(5, 2)]`, `fund = [(5, 3)]`, synthetic rate 9. -/
theorem calculate_funding_fees_spec_witness :
    (calculate_funding_fees [CombinedRow.mk 5 2 3, CombinedRow.mk 10 4 5]
        7 true 0 6 =
      (([CombinedRow.mk 5 2 3, CombinedRow.mk 10 4 5].filter fun row =>
          (0 : ℤ) ≤ row.date ∧ row.date ≤ 6).map
        fun row => row.open_fund * row.open_mark * 7).sum) ∧
    (calculate_funding_fees [CombinedRow.mk 5 2 3, CombinedRow.mk 10 4 5]
        7 false 0 6 =
      -(([CombinedRow.mk 5 2 3, CombinedRow.mk 10 4 5].filter fun row =>
          (0 : ℤ) ≤ row.date ∧ row.date ≤ 6).map
        fun row => row.open_fund * row.open_mark * 7).sum) ∧
    (∀ (d : ℤ) (om of' : ℚ),
      CombinedRow.mk d om of' ∈
          combine_funding_and_mark [(5, 3)] [(5, 2)] none ↔
        ((d, om) ∈ [((5 : ℤ), (2 : ℚ))] ∧
          (d, of') ∈ [((5 : ℤ), (3 : ℚ))])) ∧
    (∀ (d : ℤ) (om : ℚ), (d, om) ∈ [((5 : ℤ), (2 : ℚ))] →
      ((∀ fr ∈ [((5 : ℤ), (3 : ℚ))], fr.1 ≠ d) →
        CombinedRow.mk d om 9 ∈
          combine_funding_and_mark [(5, 3)] [(5, 2)] (some 9)) ∧
      (∀ of', (d, of') ∈ [((5 : ℤ), (3 : ℚ))] →
        CombinedRow.mk d om of' ∈
          combine_funding_and_mark [(5, 3)] [(5, 2)] (some 9))) :=
  calculate_funding_fees_spec [CombinedRow.mk 5 2 3, CombinedRow.mk 10 4 5]
    7 0 6 [(5, 2)] [(5, 3)] 9

/-- C8 counterexample: with a pagination dialect that is neither
time-based nor id-based, `_async_get_trade_history` raises
`OperationalException` — not an error named `NotPaginatable` (no such
error exists in the engine's §7 taxonomy). -/
theorem trade_pagination_counterexample :
    async_get_trade_history "emulated" =
      Except.error FtError.operationalException ∧
    async_get_trade_history "emulated" ≠
      Except.error FtError.notPaginatable := by
  have h : async_get_trade_history "emulated" =
      Except.error FtError.operationalException := by
    simp [async_get_trade_history]
  exact ⟨h, by simp [h]⟩

/-- C8 (amended): for every venue whose configured trade-pagination
dialect is neither `"time"` nor `"id"`, a public trade-history pull fails
with `OperationalException` (the unsupported-venue error) and never
dispatches to either pagination loop. -/
theorem async_get_trade_history_spec (p : String) (h1 : p ≠ "time")
    (h2 : p ≠ "id") :
    async_get_trade_history p = Except.error FtError.operationalException ∧
    ∀ call, async_get_trade_history p ≠ Except.ok call := by
  have h : async_get_trade_history p =
      Except.error FtError.operationalException := by
    simp [async_get_trade_history, h1, h2]
  exact ⟨h, fun call => by simp [h]⟩

/-- Witness for C8 at the dialect string `"emulated"`. -/
theorem async_get_trade_history_spec_witness :
    async_get_trade_history "emulated" =
      Except.error FtError.operationalException ∧
    ∀ call, async_get_trade_history "emulated" ≠ Except.ok call :=
  async_get_trade_history_spec "emulated" (by simp) (by simp)

end Freqtrade
